import Mathlib

/-!
Verification development for the Logo turtle-graphics interpreter
(`logo.py`).  The source pipeline — lexer, recursive-descent parser and
tree-walking evaluator — is embedded shallowly below:

* mutable lexer/parser state becomes explicit state passing over
  `LexerState`;
* the unbounded `while True` loops of the source (comment skipping, the
  parser loops, evaluation of recursive procedures) become fuel-indexed
  recursions; running out of fuel is `diverge`/`timeout`, a result no
  terminating Python run produces, so statements about `ret`/`ok`
  results are statements about the Python behaviour;
* Python `None` flowing through lexing, parsing and evaluation is kept
  explicit (`Expr.pynone`, `Ast.pynone`, `Value.pynone`, `Option`
  results);
* Python floats are represented as exact decimal fractions (`PyNum`):
  the interpreter performs no arithmetic on numbers beyond zero-tests
  (truthiness) and `int` truncation, and on the decimal literals the
  lexer accepts both operations agree with their IEEE-double originals;
* raising an exception becomes an error result: `Res.perr`/`RunResult.err`
  for `LogoParserError`/`RuntimeError`, and `Res.crash` for Python-level
  faults (`AttributeError` on `None.isnumeric()` after a lone minus,
  failing `assert not is_negative`, `int(None)`), which the source does
  not catch either.

The mutually recursive parser procedures and the evaluator `run` are
each encoded as one fueled function over a small request sum
(`PTask`, `Job`) so that they compute by kernel reduction; mismatched
request/answer shapes are mapped to `Res.crash` and are unreachable.
-/

/-- Exact decimal fraction standing for a Python float literal value. -/
structure PyNum where
  num : Int
  den : Nat
deriving DecidableEq

/-- Python `int()` applied to a float: truncation toward zero. -/
def PyNum.trunc (v : PyNum) : Int := v.num.tdiv (v.den : Int)

/-- Line/column pair tracked by the lexer; `line_num` starts at 1,
`char` at 0. -/
structure FilePosition where
  line_num : Nat
  char : Nat
deriving DecidableEq

inductive TokenKind where
  | REPEAT | ROTATE | FORWARD | BACKWARD | PENUP | PENDOWN
  | LBRACE | RBRACE | NUMBER | SYMBOL | IDENTIFIER | TO | END | EOF
deriving DecidableEq

/-- A token: kind, the position copied from the lexer at creation time,
and optional literal content. -/
structure Token where
  kind : TokenKind
  position : FilePosition
  content : Option String
deriving DecidableEq

/-- Lexer state: the full text, the cursor index, the tracked position
and the pushback buffer.  Only `maybe_match` ever pushes a token back
(`peek` is never called by the parser), so the buffer holds tokens. -/
structure LexerState where
  text : List Char
  index : Nat
  pos : FilePosition
  buffer : List Token
deriving DecidableEq

def initLexer (s : String) : LexerState := ⟨s.data, 0, ⟨1, 0⟩, []⟩

/-- `_peek_c` with the default zero offset (the only way it is called). -/
def peekC (st : LexerState) : Option Char := st.text.get? st.index

/-- `_advance(1)`.  The source raises when the index moves past the end,
but every call site first checks `_peek_c`/`_pop_c`, so that branch is
unreachable; here it advances the index without a position change. -/
def advance1 (st : LexerState) : LexerState :=
  match st.text.get? st.index with
  | some c =>
    let p1 : FilePosition := ⟨st.pos.line_num, st.pos.char + 1⟩
    let p2 : FilePosition := if c = '\n' then ⟨p1.line_num + 1, 0⟩ else p1
    { st with index := st.index + 1, pos := p2 }
  | none => { st with index := st.index + 1 }

/-- `_pop_c` with the default size 1: returns `none` without advancing
when the end of the text is reached. -/
def popC (st : LexerState) : Option Char × LexerState :=
  if st.index + 1 > st.text.length then (none, st)
  else (st.text.get? st.index, advance1 st)

/-- Python `str.isspace` on the ASCII range. -/
def pyIsSpace (c : Char) : Bool :=
  c = ' ' || c = '\t' || c = '\n' || c = '\r' || c = '\x0b' || c = '\x0c'

/-- The character class of `is_identifier_char`. -/
def isIdentChar (c : Char) : Bool := c.isAlphanum || c = '_'

/-- Fueled body of `get_while`. -/
def getWhileF (cond : Char → Bool) : Nat → LexerState → List Char × LexerState
  | 0, st => ([], st)
  | f+1, st =>
    match peekC st with
    | none => ([], st)
    | some c =>
      if cond c then
        let r := getWhileF cond f (advance1 st)
        (c :: r.1, r.2)
      else ([], st)

/-- `get_while(cond)`: the loop consumes at most the remaining
characters, so that much fuel makes the fueled loop exact. -/
def getWhile (cond : Char → Bool) (st : LexerState) : List Char × LexerState :=
  getWhileF cond (st.text.length - st.index) st

/-- The inner single-line-comment loop of `eat_spaces`: pop characters
until a newline is popped.  At the end of the input `_pop_c` returns
`None` forever, `None` is never equal to a newline, and the source loop
runs forever; here that is fuel exhaustion (`none`). -/
def eatComment : Nat → LexerState → Option LexerState
  | 0, _ => none
  | f+1, st =>
    let r := popC st
    match r.1 with
    | some c => if c = '\n' then some r.2 else eatComment f r.2
    | none => eatComment f r.2

/-- `eat_spaces`: skip whitespace runs and hash line comments. -/
def eatSpaces : Nat → LexerState → Option LexerState
  | 0, _ => none
  | f+1, st =>
    let sp := getWhile pyIsSpace st
    match peekC sp.2 with
    | none => some sp.2
    | some c =>
      if c = '#' then
        match eatComment f (advance1 sp.2) with
        | some st2 => eatSpaces f st2
        | none => none
      else if sp.1.isEmpty then some sp.2
      else eatSpaces f sp.2

/-- Structured form of a raised `LogoParserError` from the lexer
`match` method. -/
inductive PErr where
  | expecting (expected : TokenKind) (got : Token) (pos : FilePosition)
deriving DecidableEq

/-- Outcome of a lexer/parser computation: divergence of a source
`while True` loop, an uncaught Python-level fault, a raised
`LogoParserError`, or a normal return. -/
inductive Res (α : Type) where
  | diverge
  | crash
  | perr (e : PErr)
  | ret (a : α)

def rbind {α β : Type} (r : Res α) (f : α → Res β) : Res β :=
  match r with
  | .diverge => .diverge
  | .crash => .crash
  | .perr e => .perr e
  | .ret a => f a

/-- `Lexer.pop`: take a buffered token if any, otherwise skip
whitespace/comments and scan one token.  A returned `(none, st)` is the
Python `pop` returning `None` (malformed numeral, unknown character). -/
def popToken (fuel : Nat) (st : LexerState) : Res (Option Token × LexerState) :=
  match st.buffer with
  | b :: rest => .ret (some b, { st with buffer := rest })
  | [] =>
    match eatSpaces fuel st with
    | none => .diverge
    | some st0 =>
      match popC st0 with
      | (none, st1) => .ret (some ⟨.EOF, st1.pos, none⟩, st1)
      | (some c, st1) =>
        if c = '[' then .ret (some ⟨.LBRACE, st1.pos, none⟩, st1)
        else if c = ']' then .ret (some ⟨.RBRACE, st1.pos, none⟩, st1)
        else if c.isAlpha then
          let g := getWhile isIdentChar st1
          let content := c :: g.1
          let low := content.map Char.toLower
          if low = "repeat".data then .ret (some ⟨.REPEAT, g.2.pos, none⟩, g.2)
          else if low = "rotate".data then .ret (some ⟨.ROTATE, g.2.pos, none⟩, g.2)
          else if low = "backward".data then .ret (some ⟨.BACKWARD, g.2.pos, none⟩, g.2)
          else if low = "forward".data then .ret (some ⟨.FORWARD, g.2.pos, none⟩, g.2)
          else if low = "penup".data then .ret (some ⟨.PENUP, g.2.pos, none⟩, g.2)
          else if low = "pendown".data then .ret (some ⟨.PENDOWN, g.2.pos, none⟩, g.2)
          else if low = "to".data then .ret (some ⟨.TO, g.2.pos, none⟩, g.2)
          else if low = "end".data then .ret (some ⟨.END, g.2.pos, none⟩, g.2)
          else .ret (some ⟨.IDENTIFIER, g.2.pos, some (String.mk content)⟩, g.2)
        else if c = ':' then
          let g := getWhile isIdentChar st1
          .ret (some ⟨.SYMBOL, g.2.pos, some (String.mk (c :: g.1))⟩, g.2)
        else
          match (if c = '-' then popC st1 else (some c, st1)) with
          | (none, _) => .crash
          | (some c2, stN) =>
            if c2.isDigit then
              let g := getWhile Char.isDigit stN
              let lit := c2 :: g.1
              if peekC g.2 = some '.' then
                let g2 := getWhile Char.isDigit (advance1 g.2)
                if g2.1.isEmpty then .ret (none, g2.2)
                else
                  let lit2 := lit ++ '.' :: g2.1
                  .ret (some ⟨.NUMBER, g2.2.pos,
                    some (String.mk (if c = '-' then '-' :: lit2 else lit2))⟩, g2.2)
              else
                .ret (some ⟨.NUMBER, g.2.pos,
                  some (String.mk (if c = '-' then '-' :: lit else lit))⟩, g.2)
            else
              if c = '-' then .crash
              else .ret (none, stN)

/-- `Lexer.match`: pop, pass a `None` through, raise on a kind
mismatch (the raised error reads the live lexer position). -/
def matchTok (fuel : Nat) (st : LexerState) (expected : TokenKind) :
    Res (Option Token × LexerState) :=
  rbind (popToken fuel st) fun r =>
    match r with
    | (none, st1) => .ret (none, st1)
    | (some t, st1) =>
      if t.kind = expected then .ret (some t, st1)
      else .perr (.expecting expected t st1.pos)

/-- `Lexer.maybe_match`: pop, pass a `None` through, push the token
back on a kind mismatch. -/
def maybeMatch (fuel : Nat) (st : LexerState) (expected : TokenKind) :
    Res (Option Token × LexerState) :=
  rbind (popToken fuel st) fun r =>
    match r with
    | (none, st1) => .ret (none, st1)
    | (some t, st1) =>
      if t.kind = expected then .ret (some t, st1)
      else .ret (none, { st1 with buffer := st1.buffer ++ [t] })

/-- Value of a digit run. -/
def digitsToNat (cs : List Char) : Nat :=
  cs.foldl (fun a c => a * 10 + (c.toNat - 48)) 0

/-- Python `float()` on an unsigned lexer numeral. -/
def pyFloatPos (cs : List Char) : PyNum :=
  let ip := cs.takeWhile (fun c => c ≠ '.')
  match cs.dropWhile (fun c => c ≠ '.') with
  | _ :: frac =>
    ⟨(digitsToNat ip * 10 ^ frac.length + digitsToNat frac : Nat), 10 ^ frac.length⟩
  | [] => ⟨(digitsToNat ip : Nat), 1⟩

/-- Python `float()` on a lexer numeral, sign included. -/
def pyFloat (s : String) : PyNum :=
  match s.data with
  | '-' :: rest => let v := pyFloatPos rest; ⟨-v.num, v.den⟩
  | _ => pyFloatPos s.data

/-- An expression slot: a float literal, a symbol reference, or the
Python `None` that `parse_expression` produces when the next token is
neither a number nor a symbol. -/
inductive Expr where
  | num (v : PyNum)
  | sym (name : String)
  | pynone
deriving DecidableEq

/-- The AST node variants.  `Ast.pynone` is the Python `None` that
`parse_instruction` returns when no alternative matches; `run` on it
reaches the unknown-instruction branch, as in the source. -/
inductive Ast where
  | rotate (n : Expr)
  | forward (n : Expr)
  | backward (n : Expr)
  | penup
  | pendown
  | block (body : List Ast)
  | rep (times : Expr) (blk : Ast)
  | proc (name : String) (args : List String) (body : List Ast)
  | call (procName : String) (args : List Expr)
  | pynone

def exprOf : Option Expr → Expr
  | some e => e
  | none => .pynone

def astOf : Option Ast → Ast
  | some a => a
  | none => .pynone

/-- Python truthiness of what `parse_expression` returned: a float is
falsy exactly when it is zero, a `SymbolReference` object is truthy,
`None` is falsy.  This drives the argument loop of a bare call. -/
def exprTruthy : Expr → Bool
  | .num v => decide (v.num ≠ 0)
  | .sym _ => true
  | .pynone => false

/-- `parse_expression`: a NUMBER becomes a float, a SYMBOL a symbol
reference, anything else is no expression (`none`) with the offending
token pushed back. -/
def parse_expression (fuel : Nat) (st : LexerState) : Res (Option Expr × LexerState) :=
  rbind (maybeMatch fuel st .NUMBER) fun r1 =>
    match r1 with
    | (some t, st1) => .ret (some (.num (pyFloat (t.content.getD ""))), st1)
    | (none, st1) =>
      rbind (maybeMatch fuel st1 .SYMBOL) fun r2 =>
        match r2 with
        | (some t, st2) => .ret (some (.sym (t.content.getD "")), st2)
        | (none, st2) => .ret (none, st2)

/-- Requests for the parser procedures: `instr` and `blk` are
`parse_instruction` and `parse_block`; the remaining constructors are
the `while` loops of the source with their accumulators. -/
inductive PTask where
  | instr
  | blk
  | blockItems (acc : List Ast)
  | procBody (acc : List Ast)
  | symArgs (acc : List String)
  | callArgs (acc : List Expr)
  | program (acc : List Ast)

/-- Answers of the parser procedures. -/
inductive PVal where
  | instr (i : Option Ast)
  | asts (l : List Ast)
  | strs (l : List String)
  | exprs (l : List Expr)

/-- The parser, one fueled function over `PTask` (the source procedures
are mutually recursive).  Shape-mismatched answers are `crash` and
unreachable. -/
def parseStep : Nat → PTask → LexerState → Res (PVal × LexerState)
  | 0, _, _ => .diverge
  | f+1, .instr, st =>
    rbind (maybeMatch f st .TO) fun r0 =>
    match r0 with
    | (some _, st1) =>
      rbind (matchTok f st1 .IDENTIFIER) fun r1 =>
      match r1 with
      | (nameTok, st2) =>
        rbind (parseStep f (.symArgs []) st2) fun r2 =>
        match r2 with
        | (.strs args, st3) =>
          rbind (parseStep f (.procBody []) st3) fun r3 =>
          match r3 with
          | (.asts body, st4) =>
            match nameTok with
            | some t => .ret (.instr (some (.proc (t.content.getD "") args body)), st4)
            | none => .crash
          | _ => .crash
        | _ => .crash
    | (none, st1) =>
      rbind (maybeMatch f st1 .ROTATE) fun rR =>
      match rR with
      | (some _, st2) =>
        rbind (parse_expression f st2) fun re =>
        match re with
        | (eo, st3) => .ret (.instr (some (.rotate (exprOf eo))), st3)
      | (none, st2) =>
        rbind (maybeMatch f st2 .FORWARD) fun rF =>
        match rF with
        | (some _, st3) =>
          rbind (parse_expression f st3) fun re =>
          match re with
          | (eo, st4) => .ret (.instr (some (.forward (exprOf eo))), st4)
        | (none, st3) =>
          rbind (maybeMatch f st3 .BACKWARD) fun rB =>
          match rB with
          | (some _, st4) =>
            rbind (parse_expression f st4) fun re =>
            match re with
            | (eo, st5) => .ret (.instr (some (.backward (exprOf eo))), st5)
          | (none, st4) =>
            rbind (maybeMatch f st4 .PENDOWN) fun rPD =>
            match rPD with
            | (some _, st5) => .ret (.instr (some .pendown), st5)
            | (none, st5) =>
              rbind (maybeMatch f st5 .PENUP) fun rPU =>
              match rPU with
              | (some _, st6) => .ret (.instr (some .penup), st6)
              | (none, st6) =>
                rbind (maybeMatch f st6 .REPEAT) fun rRe =>
                match rRe with
                | (some _, st7) =>
                  rbind (parse_expression f st7) fun re =>
                  match re with
                  | (to2, st8) =>
                    rbind (parseStep f .blk st8) fun rb =>
                    match rb with
                    | (.instr bo, st9) =>
                      .ret (.instr (some (.rep (exprOf to2) (astOf bo))), st9)
                    | _ => .crash
                | (none, st7) =>
                  rbind (maybeMatch f st7 .IDENTIFIER) fun rI =>
                  match rI with
                  | (some t, st8) =>
                    rbind (parseStep f (.callArgs []) st8) fun ra =>
                    match ra with
                    | (.exprs args, st9) =>
                      .ret (.instr (some (.call (t.content.getD "") args)), st9)
                    | _ => .crash
                  | (none, st8) => .ret (.instr none, st8)
  | f+1, .blk, st =>
    rbind (maybeMatch f st .LBRACE) fun r0 =>
    match r0 with
    | (some _, st1) =>
      rbind (parseStep f (.blockItems []) st1) fun r1 =>
      match r1 with
      | (.asts items, st2) => .ret (.instr (some (.block items)), st2)
      | _ => .crash
    | (none, st1) => parseStep f .instr st1
  | f+1, .blockItems acc, st =>
    rbind (maybeMatch f st .RBRACE) fun r0 =>
    match r0 with
    | (some _, st1) => .ret (.asts acc, st1)
    | (none, st1) =>
      rbind (parseStep f .instr st1) fun r1 =>
      match r1 with
      | (.instr io, st2) => parseStep f (.blockItems (acc ++ [astOf io])) st2
      | _ => .crash
  | f+1, .procBody acc, st =>
    rbind (maybeMatch f st .END) fun r0 =>
    match r0 with
    | (some _, st1) => .ret (.asts acc, st1)
    | (none, st1) =>
      rbind (parseStep f .instr st1) fun r1 =>
      match r1 with
      | (.instr io, st2) => parseStep f (.procBody (acc ++ [astOf io])) st2
      | _ => .crash
  | f+1, .symArgs acc, st =>
    rbind (maybeMatch f st .SYMBOL) fun r0 =>
    match r0 with
    | (some t, st1) => parseStep f (.symArgs (acc ++ [t.content.getD ""])) st1
    | (none, st1) => .ret (.strs acc, st1)
  | f+1, .callArgs acc, st =>
    rbind (parse_expression f st) fun r0 =>
    match r0 with
    | (some e, st1) =>
      if exprTruthy e then parseStep f (.callArgs (acc ++ [e])) st1
      else .ret (.exprs acc, st1)
    | (none, st1) => .ret (.exprs acc, st1)
  | f+1, .program acc, st =>
    rbind (maybeMatch f st .EOF) fun r0 =>
    match r0 with
    | (some _, st1) => .ret (.asts acc, st1)
    | (none, st1) =>
      rbind (parseStep f .instr st1) fun r1 =>
      match r1 with
      | (.instr io, st2) => parseStep f (.program (acc ++ [astOf io])) st2
      | _ => .crash

/-- `LogoParser.parse`: instructions until EOF, collected in a block. -/
def parse (fuel : Nat) (st : LexerState) : Res (Ast × LexerState) :=
  rbind (parseStep fuel (.program []) st) fun r =>
  match r with
  | (.asts body, st1) => .ret (.block body, st1)
  | _ => .crash

/-- A runtime value: a float, a procedure node (name, formals, body
instructions), or Python `None`. -/
inductive Value where
  | num (v : PyNum)
  | procV (name : String) (args : List String) (body : List Ast)
  | pynone

/-- Python truthiness of a stored value, as tested by the walrus `if`
in `resolve` and by `if not procedure` in `run`. -/
def truthy : Value → Bool
  | .num v => decide (v.num ≠ 0)
  | .procV _ _ _ => true
  | .pynone => false

/-- An environment: local bindings plus an optional parent. -/
inductive Env where
  | root (names : List (String × Value))
  | child (names : List (String × Value)) (parent : Env)

/-- Python dict get. -/
def dictGet : List (String × Value) → String → Option Value
  | [], _ => none
  | (k, v) :: rest, name => if k = name then some v else dictGet rest name

/-- Python dict item assignment: overwrite in place or append. -/
def dictSet : List (String × Value) → String → Value → List (String × Value)
  | [], name, value => [(name, value)]
  | (k, v) :: rest, name, value =>
    if k = name then (k, value) :: rest else (k, v) :: dictSet rest name value

def Env.names : Env → List (String × Value)
  | .root ns => ns
  | .child ns _ => ns

/-- `Environment.set`: writes into the local scope only. -/
def Env.set : Env → String → Value → Env
  | .root ns, name, value => .root (dictSet ns name value)
  | .child ns p, name, value => .child (dictSet ns name value) p

/-- `Environment.resolve`.  The source guards the local hit with the
truthiness of the value (`if value := self._names.get(name):`), so a
falsy local binding falls through to the parent chain, and `None` is
the not-found result. -/
def Env.resolve : Env → String → Value
  | .root ns, name =>
    match dictGet ns name with
    | some v => if truthy v then v else .pynone
    | none => .pynone
  | .child ns p, name =>
    match dictGet ns name with
    | some v => if truthy v then v else Env.resolve p name
    | none => Env.resolve p name

/-- The values bound to a name along the scope chain, nearest first
(one entry per scope that binds the name at all). -/
def Env.boundChain : Env → String → List Value
  | .root ns, name => (dictGet ns name).toList
  | .child ns p, name => (dictGet ns name).toList ++ Env.boundChain p name

/-- `evaluate_expression`: a symbol reference resolves in the given
environment, anything else is returned as is. -/
def evaluate_expression (expr : Expr) (env : Env) : Value :=
  match expr with
  | .sym name => env.resolve name
  | .num v => .num v
  | .pynone => .pynone

/-- A command issued to the turtle device, payload included. -/
inductive Cmd where
  | forward (v : Value)
  | backward (v : Value)
  | left (v : Value)
  | penup
  | pendown

/-- Errors the evaluator can raise: the two `LogoParserError`s of the
call branch, the unknown-instruction `RuntimeError`, and the two
uncaught Python faults (`int()` of a non-number, attribute access on a
non-procedure). -/
inductive RunError where
  | undefinedProcedure (name : String)
  | arityMismatch (name : String) (needed passed : Nat)
  | unknownInstruction
  | pyTypeError
  | pyAttributeError

/-- Result of evaluation: fuel exhaustion, a raised error, or the list
of device commands together with the updated current environment
(parents are never written, see `Env.set`). -/
inductive RunResult where
  | timeout
  | err (e : RunError)
  | ok (cmds : List Cmd) (env : Env)

/-- Requests for the evaluator: one node, the body list of a block, or
the countdown of a `REPEAT` loop. -/
inductive Job where
  | one (node : Ast)
  | many (nodes : List Ast)
  | rep (count : Nat) (blk : Ast)

/-- The evaluator `run`, as one fueled function.  The call branch
follows the source: resolve the name, fail on a falsy result, check the
arity, create a child of the caller environment, bind the formals to
the argument values evaluated in the caller environment, run the body
in the child, and return to the caller environment. -/
def exec : Nat → Job → Env → RunResult
  | 0, _, _ => .timeout
  | f+1, .one node, env =>
    match node with
    | .forward e => .ok [.forward (evaluate_expression e env)] env
    | .backward e => .ok [.backward (evaluate_expression e env)] env
    | .rotate e => .ok [.left (evaluate_expression e env)] env
    | .penup => .ok [.penup] env
    | .pendown => .ok [.pendown] env
    | .block body => exec f (.many body) env
    | .rep te blk =>
      match evaluate_expression te env with
      | .num v => exec f (.rep v.trunc.toNat blk) env
      | _ => .err .pyTypeError
    | .proc name args body => .ok [] (env.set name (.procV name args body))
    | .call name args =>
      if truthy (env.resolve name) then
        match env.resolve name with
        | .procV pname pargs pbody =>
          if pargs.length ≠ args.length then
            .err (.arityMismatch pname pargs.length args.length)
          else
            let child := (pargs.zip args).foldl
              (fun ce pa => ce.set pa.1 (evaluate_expression pa.2 env)) (Env.child [] env)
            match exec f (.one (.block pbody)) child with
            | .ok cmds _ => .ok cmds env
            | r => r
        | _ => .err .pyAttributeError
      else .err (.undefinedProcedure name)
    | .pynone => .err .unknownInstruction
  | f+1, .many nodes, env =>
    match nodes with
    | [] => .ok [] env
    | n :: rest =>
      match exec f (.one n) env with
      | .ok cmds env1 =>
        match exec f (.many rest) env1 with
        | .ok cmds2 env2 => .ok (cmds ++ cmds2) env2
        | r => r
      | r => r
  | f+1, .rep count blk, env =>
    match count with
    | 0 => .ok [] env
    | k+1 =>
      match exec f (.one blk) env with
      | .ok cmds env1 =>
        match exec f (.rep k blk) env1 with
        | .ok cmds2 env2 => .ok (cmds ++ cmds2) env2
        | r => r
      | r => r

/-- `run(node, environment, turtle)`. -/
def run (fuel : Nat) (node : Ast) (env : Env) : RunResult :=
  exec fuel (.one node) env

/-- Instructions that contain no textual `Procedure` definition (a call
may still execute one, but only inside its own child environment). -/
def noProcDef : Ast → Bool
  | .rotate _ | .forward _ | .backward _ | .penup | .pendown
  | .call _ _ | .pynone => true
  | .proc _ _ _ => false
  | .rep _ blk => noProcDef blk
  | .block body => go body
where go : List Ast → Bool
  | [] => true
  | a :: rest => noProcDef a && go rest

/-! ## Helper lemmas -/

theorem advance1_text (st : LexerState) : (advance1 st).text = st.text := by
  unfold advance1
  cases st.text.get? st.index <;> rfl

theorem advance1_index (st : LexerState) : (advance1 st).index = st.index + 1 := by
  unfold advance1
  cases st.text.get? st.index <;> rfl

theorem eatComment_none (f : Nat) : ∀ st : LexerState,
    '\n' ∉ st.text.drop st.index → eatComment f st = none := by
  induction f with
  | zero => intro st _; rfl
  | succ f ih =>
    intro st h
    by_cases hlen : st.index + 1 > st.text.length
    · show (match (popC st).1 with
        | some c => if c = '\n' then some (popC st).2 else eatComment f (popC st).2
        | none => eatComment f (popC st).2) = none
      rw [popC, if_pos hlen]
      exact ih st h
    · have hidx : st.index < st.text.length := by omega
      have hdropcons : st.text.drop st.index =
          st.text.get ⟨st.index, hidx⟩ :: st.text.drop (st.index + 1) :=
        List.drop_eq_getElem_cons hidx
      have hget : st.text.get? st.index = some (st.text.get ⟨st.index, hidx⟩) :=
        List.get?_eq_get hidx
      have hc : st.text.get ⟨st.index, hidx⟩ ≠ '\n' := by
        intro hcontra
        exact h (by rw [hdropcons, hcontra]; exact List.mem_cons_self _ _)
      have htail : '\n' ∉ (advance1 st).text.drop (advance1 st).index := by
        rw [advance1_text, advance1_index]
        intro hcontra
        exact h (by rw [hdropcons]; exact List.mem_cons_of_mem _ hcontra)
      show (match (popC st).1 with
        | some c => if c = '\n' then some (popC st).2 else eatComment f (popC st).2
        | none => eatComment f (popC st).2) = none
      rw [popC, if_neg hlen, hget]
      show (if st.text.get ⟨st.index, hidx⟩ = '\n' then some (advance1 st)
            else eatComment f (advance1 st)) = none
      rw [if_neg hc]
      exact ih (advance1 st) htail

theorem resolve_eq_find (env : Env) (name : String) :
    env.resolve name = ((env.boundChain name).find? truthy).getD .pynone := by
  induction env with
  | root ns =>
    simp only [Env.resolve, Env.boundChain]
    cases dictGet ns name with
    | none => rfl
    | some v =>
      by_cases h : truthy v
      · simp [List.find?, h]
      · simp [List.find?, h]
  | child ns p ih =>
    simp only [Env.resolve, Env.boundChain]
    cases dictGet ns name with
    | none => simpa using ih
    | some v =>
      by_cases h : truthy v
      · simp [List.find?, h]
      · have hb : truthy v = false := by simpa using h
        simp [List.find?, hb, ih]

theorem dictSet_notmem (k : String) (v : Value) :
    ∀ l : List (String × Value), (∀ p ∈ l, p.1 ≠ k) →
      dictSet l k v = l ++ [(k, v)] := by
  intro l
  induction l with
  | nil => intro _; rfl
  | cons q rest ih =>
    intro h
    obtain ⟨a, b⟩ := q
    have ha : a ≠ k := h (a, b) (by simp)
    simp only [dictSet, if_neg ha, List.cons_append, List.cons.injEq, true_and]
    exact ih (fun p hp => h p (by simp [hp]))

theorem foldl_set_child (env : Env) :
    ∀ (ps : List (String × Expr)) (acc : List (String × Value)),
      (∀ p ∈ ps, ∀ q ∈ acc, p.1 ≠ q.1) → (ps.map Prod.fst).Nodup →
      ps.foldl (fun ce pa => ce.set pa.1 (evaluate_expression pa.2 env))
          (Env.child acc env)
        = Env.child (acc ++ ps.map (fun pa => (pa.1, evaluate_expression pa.2 env))) env := by
  intro ps
  induction ps with
  | nil => intro acc _ _; simp
  | cons p rest ih =>
    intro acc hdisj hnodup
    obtain ⟨a, e⟩ := p
    simp only [List.foldl_cons]
    have hset : (Env.child acc env).set a (evaluate_expression e env)
        = Env.child (acc ++ [(a, evaluate_expression e env)]) env := by
      simp only [Env.set]
      rw [dictSet_notmem a (evaluate_expression e env) acc]
      intro q hq
      exact (hdisj (a, e) (by simp) q hq).symm
    have hcons := List.nodup_cons.mp (show (a :: rest.map Prod.fst).Nodup by simpa using hnodup)
    have hd2 : ∀ p ∈ rest, ∀ q ∈ acc ++ [(a, evaluate_expression e env)], p.1 ≠ q.1 := by
      intro p hp q hq
      rcases List.mem_append.mp hq with hq1 | hq1
      · exact hdisj p (by simp [hp]) q hq1
      · have hq2 : q = (a, evaluate_expression e env) := by simpa using hq1
        subst hq2
        intro hcontra
        have hpa : p.1 = a := hcontra
        exact hcons.1 (hpa ▸ List.mem_map_of_mem Prod.fst hp)
    rw [hset, ih (acc ++ [(a, evaluate_expression e env)]) hd2 hcons.2]
    simp

theorem zip_map_eval (env : Env) :
    ∀ (pargs : List String) (args : List Expr),
      (pargs.zip args).map (fun pa => (pa.1, evaluate_expression pa.2 env))
        = pargs.zip (args.map fun a => evaluate_expression a env) := by
  intro pargs
  induction pargs with
  | nil => intro args; simp
  | cons a rest ih =>
    intro args
    cases args with
    | nil => simp
    | cons b bs => simp [ih]

theorem runResult_ok_env {a : List Cmd} {b : Env} {c : List Cmd} {d : Env}
    (h : RunResult.ok a b = RunResult.ok c d) : d = b :=
  (RunResult.ok.inj h).2.symm

theorem exec_env_preserved : ∀ fuel : Nat,
    (∀ node env cmds env', noProcDef node = true →
       exec fuel (.one node) env = .ok cmds env' → env' = env)
  ∧ (∀ nodes env cmds env', noProcDef.go nodes = true →
       exec fuel (.many nodes) env = .ok cmds env' → env' = env)
  ∧ (∀ k blk env cmds env', noProcDef blk = true →
       exec fuel (.rep k blk) env = .ok cmds env' → env' = env) := by
  intro fuel
  induction fuel with
  | zero =>
    refine ⟨?_, ?_, ?_⟩
    · intro _ _ _ _ _ hex
      exact absurd hex (by simp [exec])
    · intro _ _ _ _ _ hex
      exact absurd hex (by simp [exec])
    · intro _ _ _ _ _ _ hex
      exact absurd hex (by simp [exec])
  | succ f ih =>
    obtain ⟨ih1, ih2, ih3⟩ := ih
    refine ⟨?_, ?_, ?_⟩
    · intro node env cmds env' hnp hex
      cases node with
      | rotate e => simp only [exec] at hex; exact runResult_ok_env hex
      | forward e => simp only [exec] at hex; exact runResult_ok_env hex
      | backward e => simp only [exec] at hex; exact runResult_ok_env hex
      | penup => simp only [exec] at hex; exact runResult_ok_env hex
      | pendown => simp only [exec] at hex; exact runResult_ok_env hex
      | block body =>
        simp only [exec] at hex
        simp only [noProcDef] at hnp
        exact ih2 body env cmds env' hnp hex
      | rep te blk =>
        simp only [exec] at hex
        simp only [noProcDef] at hnp
        split at hex
        · exact ih3 _ blk env cmds env' hnp hex
        · exact absurd hex (by simp)
      | proc nm fargs bd => exact absurd hnp (by simp [noProcDef])
      | call nm cargs =>
        simp only [exec] at hex
        split at hex
        · split at hex
          · split at hex
            · exact absurd hex (by simp)
            · split at hex
              · exact runResult_ok_env hex
              · rename_i hne
                exact absurd hex (hne _ _)
          · exact absurd hex (by simp)
        · exact absurd hex (by simp)
      | pynone => simp only [exec] at hex; exact absurd hex (by simp)
    · intro nodes env cmds env' hnp hex
      cases nodes with
      | nil => simp only [exec] at hex; exact runResult_ok_env hex
      | cons n rest =>
        simp only [exec] at hex
        simp only [noProcDef.go, Bool.and_eq_true] at hnp
        split at hex
        · rename_i cmds1 env1 heq1
          split at hex
          · rename_i cmds2 env2 heq2
            have h1 : env1 = env := ih1 n env cmds1 env1 hnp.1 heq1
            have h2 : env2 = env1 := ih2 rest env1 cmds2 env2 hnp.2 heq2
            have h3 : env' = env2 := runResult_ok_env hex
            rw [h3, h2, h1]
          · rename_i hne
            exact absurd hex (hne _ _)
        · rename_i hne
          exact absurd hex (hne _ _)
    · intro k blk env cmds env' hnp hex
      cases k with
      | zero => simp only [exec] at hex; exact runResult_ok_env hex
      | succ k2 =>
        simp only [exec] at hex
        split at hex
        · rename_i cmds1 env1 heq1
          split at hex
          · rename_i cmds2 env2 heq2
            have h1 : env1 = env := ih1 blk env cmds1 env1 hnp heq1
            have h2 : env2 = env1 := ih3 k2 blk env1 cmds2 env2 hnp heq2
            have h3 : env' = env2 := runResult_ok_env hex
            rw [h3, h2, h1]
          · rename_i hne
            exact absurd hex (hne _ _)
        · rename_i hne
          exact absurd hex (hne _ _)

/-- C10: every token freshly scanned by `Lexer.pop` (buffer empty)
carries a copy of the lexer position taken after the token characters
were consumed, i.e. the position recorded in the token equals the lexer
position at return time — one past the token text, not the position of
its first character.  In this pure embedding `FilePosition.copy` is a
value copy, so later lexing cannot mutate it. -/
theorem C10_token_position_past_token (fuel : Nat) (st : LexerState) (t : Token) (st' : LexerState)
    (hbuf : st.buffer = [])
    (h : popToken fuel st = .ret (some t, st')) : t.position = st'.pos := by
  obtain ⟨text, index, pos, buffer⟩ := st
  simp only at hbuf
  subst hbuf
  unfold popToken at h
  dsimp only at h
  rcases hes : eatSpaces fuel ⟨text, index, pos, []⟩ with _ | st0 <;> rw [hes] at h
  · exact absurd h (by simp)
  · dsimp only at h
    rcases hpc : popC st0 with ⟨co, st1⟩
    rw [hpc] at h
    rcases co with _ | c <;> dsimp only at h
    · simp only [Res.ret.injEq, Prod.mk.injEq, Option.some.injEq] at h
      obtain ⟨ht, hst⟩ := h
      subst ht
      subst hst
      rfl
    · generalize hg : getWhile isIdentChar st1 = g at h
      generalize hlow : List.map Char.toLower (c :: g.1) = low at h
      by_cases h1 : c = '['
      · rw [if_pos h1] at h
        simp only [Res.ret.injEq, Prod.mk.injEq, Option.some.injEq] at h
        obtain ⟨ht, hst⟩ := h
        subst ht; subst hst; rfl
      rw [if_neg h1] at h
      by_cases h2 : c = ']'
      · rw [if_pos h2] at h
        simp only [Res.ret.injEq, Prod.mk.injEq, Option.some.injEq] at h
        obtain ⟨ht, hst⟩ := h
        subst ht; subst hst; rfl
      rw [if_neg h2] at h
      by_cases h3 : c.isAlpha = true
      · rw [if_pos h3] at h
        by_cases hk1 : low = ['r', 'e', 'p', 'e', 'a', 't']
        · rw [if_pos hk1] at h
          simp only [Res.ret.injEq, Prod.mk.injEq, Option.some.injEq] at h
          obtain ⟨ht, hst⟩ := h
          subst ht; subst hst; rfl
        rw [if_neg hk1] at h
        by_cases hk2 : low = ['r', 'o', 't', 'a', 't', 'e']
        · rw [if_pos hk2] at h
          simp only [Res.ret.injEq, Prod.mk.injEq, Option.some.injEq] at h
          obtain ⟨ht, hst⟩ := h
          subst ht; subst hst; rfl
        rw [if_neg hk2] at h
        by_cases hk3 : low = ['b', 'a', 'c', 'k', 'w', 'a', 'r', 'd']
        · rw [if_pos hk3] at h
          simp only [Res.ret.injEq, Prod.mk.injEq, Option.some.injEq] at h
          obtain ⟨ht, hst⟩ := h
          subst ht; subst hst; rfl
        rw [if_neg hk3] at h
        by_cases hk4 : low = ['f', 'o', 'r', 'w', 'a', 'r', 'd']
        · rw [if_pos hk4] at h
          simp only [Res.ret.injEq, Prod.mk.injEq, Option.some.injEq] at h
          obtain ⟨ht, hst⟩ := h
          subst ht; subst hst; rfl
        rw [if_neg hk4] at h
        by_cases hk5 : low = ['p', 'e', 'n', 'u', 'p']
        · rw [if_pos hk5] at h
          simp only [Res.ret.injEq, Prod.mk.injEq, Option.some.injEq] at h
          obtain ⟨ht, hst⟩ := h
          subst ht; subst hst; rfl
        rw [if_neg hk5] at h
        by_cases hk6 : low = ['p', 'e', 'n', 'd', 'o', 'w', 'n']
        · rw [if_pos hk6] at h
          simp only [Res.ret.injEq, Prod.mk.injEq, Option.some.injEq] at h
          obtain ⟨ht, hst⟩ := h
          subst ht; subst hst; rfl
        rw [if_neg hk6] at h
        by_cases hk7 : low = ['t', 'o']
        · rw [if_pos hk7] at h
          simp only [Res.ret.injEq, Prod.mk.injEq, Option.some.injEq] at h
          obtain ⟨ht, hst⟩ := h
          subst ht; subst hst; rfl
        rw [if_neg hk7] at h
        by_cases hk8 : low = ['e', 'n', 'd']
        · rw [if_pos hk8] at h
          simp only [Res.ret.injEq, Prod.mk.injEq, Option.some.injEq] at h
          obtain ⟨ht, hst⟩ := h
          subst ht; subst hst; rfl
        rw [if_neg hk8] at h
        simp only [Res.ret.injEq, Prod.mk.injEq, Option.some.injEq] at h
        obtain ⟨ht, hst⟩ := h
        subst ht; subst hst; rfl
      rw [if_neg h3] at h
      by_cases h4 : c = ':'
      · rw [if_pos h4] at h
        simp only [Res.ret.injEq, Prod.mk.injEq, Option.some.injEq] at h
        obtain ⟨ht, hst⟩ := h
        subst ht; subst hst; rfl
      rw [if_neg h4] at h
      by_cases h5 : c = '-'
      · rw [if_pos h5] at h
        rcases hp2 : popC st1 with ⟨co2, stN⟩
        rw [hp2] at h
        rcases co2 with _ | c2 <;> dsimp only at h
        · exact absurd h (by simp)
        · by_cases h6 : c2.isDigit = true
          · rw [if_pos h6] at h
            by_cases h7 : peekC (getWhile Char.isDigit stN).2 = some '.'
            · rw [if_pos h7] at h
              by_cases h8 : (getWhile Char.isDigit (advance1 (getWhile Char.isDigit stN).2)).1.isEmpty = true
              · rw [if_pos h8] at h
                simp at h
              · rw [if_neg h8] at h
                simp only [Res.ret.injEq, Prod.mk.injEq, Option.some.injEq] at h
                obtain ⟨ht, hst⟩ := h
                subst ht; subst hst; rfl
            · rw [if_neg h7] at h
              simp only [Res.ret.injEq, Prod.mk.injEq, Option.some.injEq] at h
              obtain ⟨ht, hst⟩ := h
              subst ht; subst hst; rfl
          · rw [if_neg h6, if_pos h5] at h
            exact absurd h (by simp)
      · rw [if_neg h5] at h
        dsimp only at h
        by_cases h6 : c.isDigit = true
        · rw [if_pos h6] at h
          by_cases h7 : peekC (getWhile Char.isDigit st1).2 = some '.'
          · rw [if_pos h7] at h
            by_cases h8 : (getWhile Char.isDigit (advance1 (getWhile Char.isDigit st1).2)).1.isEmpty = true
            · rw [if_pos h8] at h
              simp at h
            · rw [if_neg h8] at h
              simp only [Res.ret.injEq, Prod.mk.injEq, Option.some.injEq] at h
              obtain ⟨ht, hst⟩ := h
              subst ht; subst hst; rfl
          · rw [if_neg h7] at h
            simp only [Res.ret.injEq, Prod.mk.injEq, Option.some.injEq] at h
            obtain ⟨ht, hst⟩ := h
            subst ht; subst hst; rfl
        · rw [if_neg h6, if_neg h5] at h
          simp at h

/-- C10 witness: the "[" program yields an LBRACE token recorded at
column 1 of line 1 — the position one past the bracket. -/
theorem C10_witness :
    (Token.mk .LBRACE ⟨1, 1⟩ none).position = (LexerState.mk ['['] 1 ⟨1, 1⟩ []).pos :=
  C10_token_position_past_token 5 (initLexer ("[")) (Token.mk .LBRACE ⟨1, 1⟩ none)
    (LexerState.mk ['['] 1 ⟨1, 1⟩ []) rfl rfl

/-- C4: the claim says whitespace-and-comment skipping terminates on
every input, a comment being consumed through the next newline or the
end of input.  The code disagrees: on a comment that reaches the end of
input without a newline ("#ab"), the inner loop of `eat_spaces` waits
forever for a newline that never comes, so the fueled skipping fails
for every amount of fuel. -/
theorem C4_eat_spaces_diverges_on_unterminated_comment :
    ∀ fuel : Nat, eatSpaces fuel (initLexer ("#ab")) = none := by
  intro fuel
  cases fuel with
  | zero => rfl
  | succ f =>
    have hcom : eatComment f ⟨['#', 'a', 'b'], 1, ⟨1, 1⟩, []⟩ = none := by
      apply eatComment_none
      decide
    show (match eatComment f ⟨['#', 'a', 'b'], 1, ⟨1, 1⟩, []⟩ with
          | some st2 => eatSpaces f st2
          | none => none) = none
    rw [hcom]

/-- C5 counterexample: lexing "12." does not raise a lexer error — the
scan returns normally with the non-token result `None` (no `perr`, no
`crash`), contradicting the claim that the lexer never silently yields
a non-token result. -/
theorem C5_counterexample :
    popToken 9 (initLexer ("12.")) =
      .ret (none, ⟨("12.").data, 3, ⟨1, 3⟩, []⟩) := rfl

/-- C5 amended: lexing "12." never yields a NUMBER token (truncated or
otherwise); `pop` consumes the digits and the dot and returns the
non-token result `None` without raising, for every amount of fuel. -/
theorem C5_pop_returns_none_on_dot_without_digit :
    ∀ fuel : Nat, popToken (fuel + 1) (initLexer ("12.")) =
      .ret (none, ⟨("12.").data, 3, ⟨1, 3⟩, []⟩) := fun _ => rfl

/-- C2 counterexample: the claim says a name bound in the local scope
is returned from the local scope regardless of the bound value.  In the
code the local hit is guarded by Python truthiness, so a local binding
of the falsy value 0.0 is skipped and the parent binding 5.0 is
returned instead. -/
theorem C2_counterexample :
    dictGet (Env.child [(("x"), Value.num ⟨0, 1⟩)]
        (Env.root [(("x"), Value.num ⟨5, 1⟩)])).names ("x") = some (Value.num ⟨0, 1⟩)
  ∧ (Env.child [(("x"), Value.num ⟨0, 1⟩)]
        (Env.root [(("x"), Value.num ⟨5, 1⟩)])).resolve ("x") = Value.num ⟨5, 1⟩
  ∧ Value.num ⟨5, 1⟩ ≠ Value.num ⟨0, 1⟩ := by
  refine ⟨rfl, rfl, ?_⟩
  intro hcontra
  exact absurd (Value.num.inj hcontra) (by decide)

/-- C2 amended: `resolve` returns the binding of the nearest enclosing
scope in which the name is bound to a truthy value (nonzero number or
procedure), skipping scopes where the name is unbound or bound to a
falsy value, and returns `None` when no scope binds the name to a
truthy value. -/
theorem C2_resolve_first_truthy (env : Env) (name : String) :
    env.resolve name = ((env.boundChain name).find? truthy).getD .pynone :=
  resolve_eq_find env name

/-- C3: calling a name bound nowhere in the chain fails with the
undefined-procedure error naming the identifier, and calling a resolved
procedure with the wrong number of arguments fails with the
arity-mismatch error naming the procedure and both counts; in both
cases the result is the error alone — no command is issued and the body
is never entered (the error needs no fuel). -/
theorem C3_call_errors (fuel : Nat) (env : Env) (name : String) (args : List Expr) :
    (env.boundChain name = [] →
       run (fuel + 1) (.call name args) env = .err (.undefinedProcedure name))
  ∧ (∀ pname pargs pbody, env.resolve name = .procV pname pargs pbody →
       pargs.length ≠ args.length →
       run (fuel + 1) (.call name args) env =
         .err (.arityMismatch pname pargs.length args.length)) := by
  constructor
  · intro hchain
    have hres : env.resolve name = .pynone := by
      rw [resolve_eq_find, hchain]
      rfl
    simp only [run, exec]
    rw [hres]
    rfl
  · intro pname pargs pbody hres hlen
    simp only [run, exec]
    rw [hres]
    simp [truthy, hlen]

/-- C3 witness: calling undefined "f" reports it, and calling the
one-parameter procedure "g" with two arguments reports needed 1,
passed 2. -/
theorem C3_witness :
    run 1 (.call ("f") []) (Env.root []) = .err (.undefinedProcedure ("f"))
  ∧ run 1 (.call ("g") [.num ⟨1, 1⟩, .num ⟨2, 1⟩])
        (Env.root [(("g"), .procV ("g") [(":a")] [])])
      = .err (.arityMismatch ("g") 1 2) := by
  constructor
  · exact (C3_call_errors 0 (Env.root []) ("f") []).1 rfl
  · exact (C3_call_errors 0 (Env.root [(("g"), .procV ("g") [(":a")] [])]) ("g")
      [.num ⟨1, 1⟩, .num ⟨2, 1⟩]).2 ("g") [(":a")] [] rfl (by decide)

/-- C1: a procedure call with a resolvable callee of matching arity
evaluates every argument expression in the caller environment, binds
the values positionally to the formal parameter names in a freshly
created child environment whose parent is the caller environment as it
is at the call site (a `Value.procV` carries no definition-time
environment at all), and then runs the procedure body in that child
environment, returning to the caller environment afterwards.  Formals
are assumed pairwise distinct so the binding dict is the positional zip. -/
theorem C1_call_child_of_caller (fuel : Nat) (env : Env) (name : String) (args : List Expr)
    (pname : String) (pargs : List String) (pbody : List Ast)
    (hres : env.resolve name = .procV pname pargs pbody)
    (hlen : pargs.length = args.length)
    (hnodup : pargs.Nodup) :
    run (fuel + 1) (.call name args) env =
      (match exec fuel (.one (.block pbody))
          (Env.child (pargs.zip (args.map fun a => evaluate_expression a env)) env) with
       | .ok cmds _ => .ok cmds env
       | r => r) := by
  have hkeys : ((pargs.zip args).map Prod.fst).Nodup := by
    rw [List.map_fst_zip pargs args (le_of_eq hlen)]
    exact hnodup
  have hfold := foldl_set_child env (pargs.zip args) [] (by simp) hkeys
  simp only [List.nil_append] at hfold
  rw [zip_map_eval env pargs args] at hfold
  simp only [run, exec]
  rw [hres]
  simp only [truthy, hlen, ne_eq, not_true_eq_false, if_false, hfold, if_true]

/-- C1 witness: calling f 7 where f :x runs forward :x issues
forward(7), the argument having been bound in the child scope. -/
theorem C1_witness :
    run 4 (.call ("f") [.num ⟨7, 1⟩])
        (Env.root [(("f"), .procV ("f") [(":x")] [.forward (.sym (":x"))])])
      = .ok [.forward (.num ⟨7, 1⟩)]
          (Env.root [(("f"), .procV ("f") [(":x")] [.forward (.sym (":x"))])]) := by
  have h := C1_call_child_of_caller 3
    (Env.root [(("f"), .procV ("f") [(":x")] [.forward (.sym (":x"))])])
    ("f") [.num ⟨7, 1⟩] ("f") [(":x")] [.forward (.sym (":x"))] rfl rfl (by decide)
  exact h.trans rfl

/-- C6 counterexample: the claim says that after ROTATE/FORWARD/BACKWARD
a token that is neither a NUMBER nor a SYMBOL makes parsing fail with a
SyntaxError.  Parsing "forward penup" instead succeeds (no `perr`),
producing a Forward node with an absent argument. -/
theorem C6_counterexample :
    parse 20 (initLexer ("forward penup")) =
      .ret (.block [.forward .pynone, .penup],
        ⟨("forward penup").data, 13, ⟨1, 13⟩, []⟩) := rfl

/-- C6 amended: when the token after ROTATE/FORWARD/BACKWARD is neither
a NUMBER nor a SYMBOL, `parse_expression` returns no expression, the
offending token is pushed back, and the parser builds the movement node
with the absent argument `None` without raising — so a successfully
parsed program can contain Rotate/Forward/Backward nodes with an absent
argument. -/
theorem C6_missing_argument_parsed_as_none :
    parse 20 (initLexer ("rotate penup")) =
      .ret (.block [.rotate .pynone, .penup], ⟨("rotate penup").data, 12, ⟨1, 12⟩, []⟩)
  ∧ parse 20 (initLexer ("backward pendown")) =
      .ret (.block [.backward .pynone, .pendown],
        ⟨("backward pendown").data, 16, ⟨1, 16⟩, []⟩)
  ∧ parse 20 (initLexer ("forward pendown")) =
      .ret (.block [.forward .pynone, .pendown],
        ⟨("forward pendown").data, 15, ⟨1, 15⟩, []⟩) :=
  ⟨rfl, rfl, rfl⟩

/-- C7: Repeat evaluates the times expression once; when it evaluates
to a number, the count is its truncation to an integer, a nonpositive
count executes the block zero times, and each iteration runs the block
in the environment the previous iteration returned — the same
environment, no child scope is created anywhere in the loop. -/
theorem C7_repeat_truncates_and_iterates (fuel : Nat) (te : Expr) (blk : Ast)
    (env : Env) (v : PyNum) (hev : evaluate_expression te env = .num v) :
    (run (fuel + 1) (.rep te blk) env = exec fuel (.rep v.trunc.toNat blk) env)
  ∧ (v.trunc ≤ 0 → run (fuel + 2) (.rep te blk) env = .ok [] env)
  ∧ (∀ k b2 env2, exec (fuel + 1) (.rep (k + 1) b2) env2 =
       (match exec fuel (.one b2) env2 with
        | .ok cmds env3 =>
          (match exec fuel (.rep k b2) env3 with
           | .ok cmds2 env4 => .ok (cmds ++ cmds2) env4
           | r => r)
        | r => r)) := by
  refine ⟨?_, ?_, ?_⟩
  · simp only [run, exec]
    rw [hev]
  · intro hle
    have h0 : v.trunc.toNat = 0 := Int.toNat_of_nonpos hle
    have h1 : run (fuel + 1 + 1) (.rep te blk) env
        = exec (fuel + 1) (.rep v.trunc.toNat blk) env := by
      simp only [run, exec]
      rw [hev]
    rw [show fuel + 2 = fuel + 1 + 1 from rfl, h1, h0]
    rfl
  · intro k b2 env2
    rfl

/-- C7 witness: repeating 2.5 times penup issues penup twice
(truncation), repeating -3 times issues nothing, both in the unchanged
environment. -/
theorem C7_witness :
    run 5 (.rep (.num ⟨25, 10⟩) .penup) (Env.root []) = .ok [.penup, .penup] (Env.root [])
  ∧ run 4 (.rep (.num ⟨-3, 1⟩) .pendown) (Env.root []) = .ok [] (Env.root []) := by
  constructor
  · exact ((C7_repeat_truncates_and_iterates 4 (.num ⟨25, 10⟩) .penup
      (Env.root []) ⟨25, 10⟩ rfl).1).trans rfl
  · exact (C7_repeat_truncates_and_iterates 2 (.num ⟨-3, 1⟩) .pendown
      (Env.root []) ⟨-3, 1⟩ rfl).2.1 (by decide)

/-- C8: a movement node whose argument is a symbol bound nowhere in the
chain does not raise — evaluation returns normally and passes the
not-found value `None` straight to the turtle command; no
undefined-variable error exists in the evaluator. -/
theorem C8_unbound_symbol_no_error (fuel : Nat) (env : Env) (name : String)
    (h : env.boundChain name = []) :
    run (fuel + 1) (.forward (.sym name)) env = .ok [.forward .pynone] env
  ∧ run (fuel + 1) (.backward (.sym name)) env = .ok [.backward .pynone] env
  ∧ run (fuel + 1) (.rotate (.sym name)) env = .ok [.left .pynone] env := by
  have hres : env.resolve name = .pynone := by
    rw [resolve_eq_find, h]
    rfl
  refine ⟨?_, ?_, ?_⟩ <;>
    (simp only [run, exec, evaluate_expression]; rw [hres])

/-- C8 witness: forward of the unbound symbol ":z" issues forward(None)
in the empty root environment. -/
theorem C8_witness :
    run 1 (.forward (.sym (":z"))) (Env.root []) = .ok [.forward .pynone] (Env.root []) :=
  (C8_unbound_symbol_no_error 0 (Env.root []) (":z") rfl).1

/-- C9 counterexample: the claim says Block nodes leave every
environment unchanged, but evaluating a Block that contains a Procedure
definition writes the procedure binding into the environment the block
runs in. -/
theorem C9_counterexample :
    run 3 (.block [.proc ("f") [] []]) (Env.root [])
        = .ok [] (Env.root [(("f"), Value.procV ("f") [] [])])
  ∧ Env.root [(("f"), Value.procV ("f") [] [])] ≠ Env.root [] := by
  refine ⟨rfl, ?_⟩
  intro hcontra
  have h := Env.root.inj hcontra
  simp at h

/-- C9 amended: an instruction containing no textual Procedure
definition (movement, pen, calls, and Block or Repeat whose nested
instructions contain none) leaves the environment it runs in unchanged;
and a ProcedureCall always returns with the caller environment
unchanged — it writes only into the fresh child environment, never into
the caller or its ancestors. -/
theorem C9_only_proc_defs_bind :
    (∀ fuel node env cmds env', noProcDef node = true →
        run fuel node env = .ok cmds env' → env' = env)
  ∧ (∀ fuel name args env cmds env',
        run fuel (.call name args) env = .ok cmds env' → env' = env) := by
  constructor
  · intro fuel node env cmds env' h hex
    exact (exec_env_preserved fuel).1 node env cmds env' h hex
  · intro fuel name args env cmds env' hex
    exact (exec_env_preserved fuel).1 (.call name args) env cmds env'
      (by simp [noProcDef]) hex

/-- C9 witness: running a procedure-free block in a nonempty root
environment returns that same environment. -/
theorem C9_witness :
    Env.root [(("a"), Value.num ⟨1, 1⟩)] = Env.root [(("a"), Value.num ⟨1, 1⟩)] :=
  C9_only_proc_defs_bind.1 3 (.block [.penup]) (Env.root [(("a"), Value.num ⟨1, 1⟩)])
    [Cmd.penup] (Env.root [(("a"), Value.num ⟨1, 1⟩)])
    (by simp [noProcDef, noProcDef.go]) rfl
